import Mathlib

/-!
# confsyncer: a verification development

A shallow embedding of the synchronisation engine of `elafarge/confsyncer`
(`confstore.go`, `syncer.go`, `etcdstore.go`, `diskstore.go`) together with the
properties of its reconciliation, propagation and echo-suppression code.

Conventions of the embedding.

* A Go `error` is an `Option String`; `none` is `nil`.
* A Go `[]byte` is a `List UInt8`; the `nil` slice is `[]`.
* A store behind the `ConfStore` interface is a record of state-passing
  functions over a state type; the calls a function makes on a store are made
  in the order in which the state is threaded.
* A Go slice is a backing array together with a length (`GoSlice`); a slice
  expression or an index that Go rejects at run time yields `none` (a panic).
* Go's `int` is the 64-bit two's complement integer: a counter of a skip map is
  an `Int`, and an addition that can leave the range wraps (`wrapInt`).
* Functions of the Go standard library and of third-party packages
  (`filepath.Join`, `filepath.Rel`, `filepath.Dir`, `ioutil.ReadFile`, the etcd
  client, fsnotify) are parameters or recorded calls.
-/

namespace Confsyncer

/-! ## confstore.go -/

/-- Go `error`: `none` is `nil`. -/
abbrev GoError := Option String

/-- Go `[]byte`. -/
abbrev Bytes := List UInt8

/-- Go `ConfEventType` (an `int`). -/
abbrev ConfEventType := Int

/-- First constant of the `iota` block. -/
def ConfPut : ConfEventType := 0

/-- Second constant of the `iota` block. -/
def ConfDelete : ConfEventType := 1

/-- Go struct `ConfEvent`: a conf change event. -/
structure ConfEvent where
  Key : String
  Content : Bytes
  Type_ : ConfEventType
  deriving DecidableEq, Repr

/-- Go struct `ConfItem`: a config store item. -/
structure ConfItem where
  Key : String
  Content : Bytes
  deriving DecidableEq, Repr

/-- Go interface `ConfStore`, restricted to the methods the syncer calls on it,
as state-passing functions over the state `σ` of the implementation. -/
structure ConfStore (σ : Type) where
  List : σ → Except String (List ConfItem) × σ
  Put : String → Bytes → σ → GoError × σ
  Delete : String → σ → GoError × σ

/-! ## Go slices -/

/-- A Go slice that starts at the beginning of its backing array: the array
(`arr`, whose length is the capacity) and the slice length. -/
structure GoSlice (α : Type) where
  arr : List α
  len : Nat
  deriving DecidableEq, Repr

namespace GoSlice

/-- The slice an enumeration is held in. Spare capacity behind the items is not
modelled: the removal loop neither reads nor writes a slot past the initial
length (`Syncer.removeLoop_spec` holds for any slots `rest` behind the items). -/
def ofList {α : Type} (l : List α) : GoSlice α := ⟨l, l.length⟩

/-- The elements of the slice, those a `range` over it visits. -/
def toList {α : Type} (s : GoSlice α) : List α := s.arr.take s.len

/-- Go `s = append(s[:i], s[i+1:]...)`.
`s[:i]` needs `i ≤ cap(s)` and `s[i+1:]` needs `i+1 ≤ len(s)`; otherwise the
slice expression panics (`none`). The result has `len(s) - 1 ≤ cap(s)` elements,
so `append` never reallocates: it moves `arr[i+1 .. len)` down by one slot in the
same backing array and leaves the slots from `len - 1` on as they were. -/
def removeAt {α : Type} (s : GoSlice α) (i : Nat) : Option (GoSlice α) :=
  if i ≤ s.arr.length ∧ i + 1 ≤ s.len then
    some ⟨s.arr.take i ++ (s.arr.drop (i + 1)).take (s.len - (i + 1)) ++ s.arr.drop (s.len - 1),
          s.len - 1⟩
  else none

end GoSlice

/-! ## syncer.go -/

/-- Go struct `Syncer`: the two store handles. -/
structure Syncer (σL σR : Type) where
  LocalStore : ConfStore σL
  RemoteStore : ConfStore σR

/-- What a call may end in: a return with an `error`, or a run-time panic. -/
inductive Outcome where
  | ret (err : GoError)
  | panic
  deriving DecidableEq, Repr

namespace Syncer

variable {σL σR : Type}

/-- The loop `for _, item := range data { store.Put(item.Key, item.Content) }`;
the error each `Put` returns is discarded. -/
def putAll {σ : Type} (store : ConfStore σ) (data : List ConfItem) (s : σ) : σ :=
  data.foldl (fun st item => (store.Put item.Key item.Content st).2) s

/-- Go `Syncer.PullFromRemote`. -/
def PullFromRemote (s : Syncer σL σR) (w : σL × σR) : GoError × (σL × σR) :=
  match s.RemoteStore.List w.2 with
  | (.error err, r) => (some ("[syncer] Error pulling data from remote: " ++ err), (w.1, r))
  | (.ok data, r) => (none, (putAll s.LocalStore data w.1, r))

/-- One iteration of the inner removal loop, at index `i`: `localItem` is read
from the backing array the `range` was started on, which is the one
`localData` still points to. -/
def removeStep (remoteKey : String) (localData : GoSlice ConfItem) (i : Nat) :
    Option (GoSlice ConfItem) :=
  match localData.arr[i]? with
  | none => none
  | some localItem =>
    if localItem.Key = remoteKey then localData.removeAt i else some localData

/-- The inner loop `for i, localItem := range localData` from index `i` on, with
`count` iterations left: the number of iterations is fixed when the loop starts
(the length of `localData` at that moment), whatever the body does to
`localData`. -/
def removeInner (remoteKey : String) : Nat → Nat → GoSlice ConfItem → Option (GoSlice ConfItem)
  | 0, _, localData => some localData
  | count + 1, i, localData =>
    match removeStep remoteKey localData i with
    | none => none
    | some localData1 => removeInner remoteKey count (i + 1) localData1

/-- The outer loop `for _, remoteItem := range remoteData`. -/
def removeLoop : List ConfItem → GoSlice ConfItem → Option (GoSlice ConfItem)
  | [], localData => some localData
  | remoteItem :: rest, localData =>
    match removeInner remoteItem.Key localData.len 0 localData with
    | none => none
    | some localData1 => removeLoop rest localData1

/-- Go `Syncer.AddLocalConfToRemoteStore`. -/
def AddLocalConfToRemoteStore (s : Syncer σL σR) (w : σL × σR) : Outcome × (σL × σR) :=
  match s.RemoteStore.List w.2 with
  | (.error err, r) =>
    (.ret (some ("[syncer] Error pulling data from remote: " ++ err)), (w.1, r))
  | (.ok remoteData, r) =>
    match s.LocalStore.List w.1 with
    | (.error err, l) =>
      (.ret (some ("[syncer] Error creating local config map: " ++ err)), (l, r))
    | (.ok localData, l) =>
      match removeLoop remoteData (GoSlice.ofList localData) with
      | none => (.panic, (l, r))
      | some localData1 => (.ret none, (l, putAll s.RemoteStore localData1.toList r))

/-- The body of a forwarding loop of `KeepInSync` for one event `ev`, `dst`
being the opposite store; a returned error is only logged. -/
def propagate {σ : Type} (dst : ConfStore σ) (st : σ) (ev : ConfEvent) : σ :=
  if ev.Type_ = ConfPut then (dst.Put ev.Key ev.Content st).2
  else if ev.Type_ = ConfDelete then (dst.Delete ev.Key st).2
  else st

/-- First goroutine of `KeepInSync` on the events `evs` received from
`LocalStore.Updates()`: it acts on the remote store. -/
def KeepInSync_localToRemote (s : Syncer σL σR) (evs : List ConfEvent) (r : σR) : σR :=
  evs.foldl (propagate s.RemoteStore) r

/-- Second goroutine of `KeepInSync` on the events `evs` received from
`RemoteStore.Updates()`: it acts on the local store. -/
def KeepInSync_remoteToLocal (s : Syncer σL σR) (evs : List ConfEvent) (l : σL) : σL :=
  evs.foldl (propagate s.LocalStore) l

end Syncer

/-! ## Two implementations of the store interface used to state the properties -/

/-- A call received by a recording store. -/
inductive Call where
  | list
  | put (key : String) (value : Bytes)
  | delete (key : String)
  deriving DecidableEq, Repr

/-- A recording store: `List` answers `listResult`, every call is appended to
`calls`, and the call number `n` (counted from 0) to `Put` or `Delete` returns
an error exactly when `fails n`. -/
structure Recorder where
  listResult : Except String (List ConfItem)
  fails : Nat → Bool
  calls : List Call

namespace Recorder

/-- The error returned by the call about to be recorded. -/
def result (s : Recorder) : GoError :=
  if s.fails s.calls.length then some "store error" else none

/-- Record one call. -/
def record (s : Recorder) (c : Call) : Recorder := { s with calls := s.calls ++ [c] }

/-- The recording store as a `ConfStore`. -/
def store : ConfStore Recorder where
  List := fun s => (s.listResult, s.record .list)
  Put := fun key value s => (s.result, s.record (.put key value))
  Delete := fun key s => (s.result, s.record (.delete key))

end Recorder

/-- A store that is a finite map from key to content, held as the list of its
entries: `List` returns the entries, `Put` sets a key and succeeds, `Delete`
removes a key and succeeds. -/
abbrev MapState := List ConfItem

namespace MapStore

/-- Set `key` to `value`: in place when the key is there, at the end otherwise. -/
def put (key : String) (value : Bytes) : MapState → MapState
  | [] => [⟨key, value⟩]
  | x :: xs => if x.Key = key then ⟨key, value⟩ :: xs else x :: put key value xs

/-- Remove `key`. -/
def delete (key : String) (m : MapState) : MapState := m.filter (fun x => x.Key ≠ key)

/-- The content held under `key`, if any. -/
def get (m : MapState) (key : String) : Option Bytes :=
  match m.find? (fun x => x.Key = key) with
  | some x => some x.Content
  | none => none

/-- The keys of the entries, in order. -/
def keys (m : MapState) : List String := m.map (fun x => x.Key)

/-- The finite-map store as a `ConfStore`. -/
def store : ConfStore MapState where
  List := fun m => (.ok m, m)
  Put := fun key value m => (none, put key value m)
  Delete := fun key m => (none, delete key m)

end MapStore

/-! ## Library functions the stores call -/

/-- The functions of Go's `path/filepath` the stores use. `Rel` returns the
relative path and the `error`. -/
structure Filepath where
  Join : String → String → String
  Rel : String → String → String × GoError
  Dir : String → String

/-- Go `map[string]int`: `none` is an absent key. -/
abbrev SkipMap := String → Option Int

/-- The map `map[string]int{}`. -/
def SkipMap.empty : SkipMap := fun _ => none

/-- The Go expression `m[key]`: the zero value when the key is absent. -/
def SkipMap.get (m : SkipMap) (key : String) : Int := (m key).getD 0

/-- The Go statement `m[key] = v`. -/
def SkipMap.set (m : SkipMap) (key : String) (v : Int) : SkipMap :=
  fun k => if k = key then some v else m k

/-- The largest value of Go's `int` (64 bits). -/
def MaxInt : Int := 9223372036854775807

/-- The smallest value of Go's `int` (64 bits). -/
def MinInt : Int := -9223372036854775808

/-- The Go `int` an integer operation yields when its exact result is `x`: the
low 64 bits of `x`, read in two's complement. -/
def wrapInt (x : Int) : Int := (x - MinInt) % 18446744073709551616 + MinInt

/-! ## etcdstore.go -/

/-- A request to the etcd backend: `client.Put(ctx, key, val)` or
`client.Delete(ctx, key)`. -/
inductive EtcdRequest where
  | put (key : String) (val : Bytes)
  | delete (key : String)
  deriving DecidableEq, Repr

/-- A request as the backend received it, with the skip map of the store as it
stood at the moment the request was issued. -/
structure EtcdCall where
  req : EtcdRequest
  skipMapAtIssue : SkipMap

/-- The etcd client: the requests issued so far, in order; request number `n`
(counted from 0) returns an error exactly when `fails n`. -/
structure EtcdClient where
  requests : List EtcdCall
  fails : Nat → Bool

/-- Go struct `Etcd3Store`. `updateChan` holds the events sent on the channel so
far, in order. -/
structure Etcd3Store where
  Prefix : String
  updateChan : List ConfEvent
  client : EtcdClient
  skipMap : SkipMap

/-- A watch notification of the etcd client: `ev.Type`, `string(ev.Kv.Key)` and
`ev.Kv.Value`. -/
structure EtcdEvent where
  Type_ : Int
  Key : String
  Value : Bytes
  deriving DecidableEq, Repr

/-- The value of `etcd3client.EventTypePut` (`mvccpb.PUT`). -/
def EventTypePut : Int := 0

/-- The value of `etcd3client.EventTypeDelete` (`mvccpb.DELETE`). -/
def EventTypeDelete : Int := 1

namespace Etcd3Store

/-- The state of `NewEtcd3Store` once the client is created. -/
def new (prefixArg : String) (fails : Nat → Bool) : Etcd3Store :=
  { Prefix := prefixArg, updateChan := [], client := ⟨[], fails⟩, skipMap := SkipMap.empty }

/-- Go `Etcd3Store.skipNext`; the addition is Go's, so it wraps from `MaxInt` to
`MinInt`. -/
def skipNext (cs : Etcd3Store) (key : String) : Etcd3Store :=
  { cs with skipMap := SkipMap.set cs.skipMap key (wrapInt (SkipMap.get cs.skipMap key + 1)) }

/-- Go `Etcd3Store.shouldSkip`: the answer and the store after the call. The
subtraction is reached with a counter above 0 only, where it is exact. -/
def shouldSkip (cs : Etcd3Store) (key : String) : Bool × Etcd3Store :=
  if SkipMap.get cs.skipMap key ≤ 0 then (false, cs)
  else (true, { cs with skipMap := SkipMap.set cs.skipMap key (SkipMap.get cs.skipMap key - 1) })

/-- The statement `cs.updateChan <- ev`. -/
def send (cs : Etcd3Store) (ev : ConfEvent) : Etcd3Store :=
  { cs with updateChan := cs.updateChan ++ [ev] }

/-- The body of the watch goroutine of `NewEtcd3Store` for one notification. -/
def watchEvent (fp : Filepath) (cs : Etcd3Store) (ev : EtcdEvent) : Etcd3Store :=
  let rel := (fp.Rel cs.Prefix ev.Key).1
  if ev.Type_ = EventTypeDelete then
    match cs.shouldSkip rel with
    | (true, cs1) => cs1
    | (false, cs1) => cs1.send { Type_ := ConfDelete, Key := rel, Content := [] }
  else if ev.Type_ = EventTypePut then
    match cs.shouldSkip rel with
    | (true, cs1) => cs1
    | (false, cs1) => cs1.send { Type_ := ConfPut, Key := rel, Content := ev.Value }
  else cs

/-- The watch goroutine of `NewEtcd3Store` on the watch responses `resps`. -/
def watchLoop (fp : Filepath) (cs : Etcd3Store) (resps : List (List EtcdEvent)) : Etcd3Store :=
  resps.foldl (fun st watchResp => watchResp.foldl (watchEvent fp) st) cs

/-- Issue a request to the backend. -/
def request (cs : Etcd3Store) (req : EtcdRequest) : GoError × Etcd3Store :=
  (if cs.client.fails cs.client.requests.length then some "etcd error" else none,
   { cs with client := { cs.client with requests := cs.client.requests ++ [⟨req, cs.skipMap⟩] } })

/-- Go `Etcd3Store.Put`. -/
def Put (fp : Filepath) (cs : Etcd3Store) (key : String) (value : Bytes) : GoError × Etcd3Store :=
  let cs1 := cs.skipNext key
  match cs1.request (.put (fp.Join cs1.Prefix key) value) with
  | (some err, cs2) =>
    (some ("[etcdstore] Error performing put on " ++ fp.Join cs2.Prefix key ++ ": " ++ err), cs2)
  | (none, cs2) => (none, cs2)

/-- Go `Etcd3Store.Delete`. -/
def Delete (fp : Filepath) (cs : Etcd3Store) (key : String) : GoError × Etcd3Store :=
  let cs1 := cs.skipNext key
  match cs1.request (.delete (fp.Join cs1.Prefix key)) with
  | (some err, cs2) =>
    (some ("[etcdstore] Error performing delete on " ++ fp.Join cs2.Prefix key ++ ": " ++ err), cs2)
  | (none, cs2) => (none, cs2)

end Etcd3Store

/-- One call of skip-map bookkeeping on a store. -/
inductive SkipOp where
  | skipNext (key : String)
  | shouldSkip (key : String)
  deriving DecidableEq, Repr

/-- Run one bookkeeping call. -/
def SkipOp.run (cs : Etcd3Store) : SkipOp → Etcd3Store
  | .skipNext key => cs.skipNext key
  | .shouldSkip key => (cs.shouldSkip key).2

/-- Whether a bookkeeping call is a `skipNext`. -/
def SkipOp.isSkipNext : SkipOp → Bool
  | .skipNext _ => true
  | .shouldSkip _ => false

/-! ## diskstore.go -/

/-- A call the disk store makes on fsnotify or on the file system. -/
inductive DiskCall where
  | watcherRemove (path : String)
  | watcherAdd (path : String)
  | mkdirAll (dir : String)
  | writeFile (path : String) (content : Bytes)
  | osRemove (path : String)
  deriving DecidableEq, Repr

/-- Go struct `DiskStore`. `updateChan` holds the events sent on the channel so
far; `calls` the calls made on `fwatcher` and on the file system, in order; call
number `n` (counted from 0) returns an error exactly when `fails n`. -/
structure DiskStore where
  Location : String
  updateChan : List ConfEvent
  skipMap : SkipMap
  calls : List DiskCall
  fails : Nat → Bool

/-- A notification of fsnotify: `ev.Name` and `ev.Op`. -/
structure FsEvent where
  Name : String
  Op : Nat
  deriving DecidableEq, Repr

/-- The value of `fsnotify.Write`. -/
def fsnotifyWrite : Nat := 2

/-- The value of `fsnotify.Remove`. -/
def fsnotifyRemove : Nat := 4

namespace DiskStore

/-- Make one call on fsnotify or on the file system. -/
def sys (cs : DiskStore) (c : DiskCall) : GoError × DiskStore :=
  (if cs.fails cs.calls.length then some "system error" else none,
   { cs with calls := cs.calls ++ [c] })

/-- The statement `cs.updateChan <- ev`. -/
def send (cs : DiskStore) (ev : ConfEvent) : DiskStore :=
  { cs with updateChan := cs.updateChan ++ [ev] }

/-- Go `DiskStore.writeFile`. -/
def writeFile (fp : Filepath) (cs : DiskStore) (path : String) (content : Bytes) :
    GoError × DiskStore :=
  let cs1 := (cs.sys (.watcherRemove path)).2
  let parentDir := fp.Dir path
  match cs1.sys (.mkdirAll parentDir) with
  | (some err, cs2) =>
    (some ("[diskstore] Impossible to create dir " ++ parentDir ++ ": " ++ err), cs2)
  | (none, cs2) =>
    match cs2.sys (.writeFile path content) with
    | (some err, cs3) =>
      (some ("[diskstore] Impossible to write file " ++ path ++ ": " ++ err), cs3)
    | (none, cs3) =>
      match cs3.sys (.watcherAdd path) with
      | (some err, cs4) =>
        (some ("[diskstore] Impossible to watch file " ++ path ++ ": " ++ err), cs4)
      | (none, cs4) => (none, cs4)

/-- Go `DiskStore.Put`. -/
def Put (fp : Filepath) (cs : DiskStore) (key : String) (content : Bytes) : GoError × DiskStore :=
  cs.writeFile fp (fp.Join cs.Location key) content

/-- Go `DiskStore.Delete`. -/
def Delete (fp : Filepath) (cs : DiskStore) (key : String) : GoError × DiskStore :=
  match cs.sys (.watcherRemove (fp.Join cs.Location key)) with
  | (some err, cs1) =>
    (some ("[diskstore] Impossible to unwatch file " ++ key ++ ": " ++ err), cs1)
  | (none, cs1) =>
    match cs1.sys (.osRemove (fp.Join cs1.Location key)) with
    | (some err, cs2) =>
      (some ("[diskstore] Impossible to remove file " ++ key ++ ": " ++ err), cs2)
    | (none, cs2) => (none, cs2)

/-- The goroutine of `NewDiskStore` that reads `cs.fwatcher.Events`, on the
notifications `evs`; `readFile` is `ioutil.ReadFile`, whose error is only
logged. An error of `filepath.Rel` leaves the loop. -/
def fileWatchLoop (fp : Filepath) (readFile : String → Bytes × GoError) :
    List FsEvent → DiskStore → DiskStore
  | [], cs => cs
  | ev :: rest, cs =>
    match fp.Rel cs.Location ev.Name with
    | (_, some _) => cs
    | (rel, none) =>
      if ev.Op = fsnotifyRemove then
        fileWatchLoop fp readFile rest (cs.send { Type_ := ConfDelete, Key := rel, Content := [] })
      else if ev.Op = fsnotifyWrite then
        let content := (readFile ev.Name).1
        fileWatchLoop fp readFile rest (cs.send { Type_ := ConfPut, Key := rel, Content := content })
      else fileWatchLoop fp readFile rest cs

end DiskStore

/-! ## Definitions used to state the properties -/

/-- The `Put` call that pushes or pulls one enumerated item. -/
def putCall (item : ConfItem) : Call := .put item.Key item.Content

/-- The calls one event is to give rise to on the opposite store, in the words
of the propagation rule: a `Put` for a `ConfPut` event, a `Delete` for a
`ConfDelete` event, nothing for an event of another type. -/
def forwardedCalls (ev : ConfEvent) : List Call :=
  if ev.Type_ = ConfPut then [.put ev.Key ev.Content]
  else if ev.Type_ = ConfDelete then [.delete ev.Key]
  else []

/-- The local items whose key does not occur in the remote enumeration. -/
def missingOnRemote (remoteData localData : List ConfItem) : List ConfItem :=
  localData.filter (fun x => x.Key ∉ remoteData.map (fun y => y.Key))

/-- A sample local enumeration: keys `a` and `b`. -/
def sampleLocal : List ConfItem := [⟨"a", [1]⟩, ⟨"b", [2]⟩]

/-- A sample remote enumeration: keys `b` and `c`, `b` with another content. -/
def sampleRemote : List ConfItem := [⟨"b", [3]⟩, ⟨"c", [4]⟩]

/-- A recording store that answers `List` with `data` and whose every write
fails. -/
def failingRecorder (data : List ConfItem) : Recorder := ⟨.ok data, fun _ => true, []⟩

/-- The startup sequence of `main` when `-just-pull` is not set, up to the call
of `KeepInSync`: `PullFromRemote`, then `AddLocalConfToRemoteStore`; an error of
the first ends the process (`log.Fatalf`) before the second is called. -/
def Syncer.reconcile {σL σR : Type} (s : Syncer σL σR) (w : σL × σR) : Outcome × (σL × σR) :=
  match s.PullFromRemote w with
  | (some err, w1) => (.ret (some ("Impossible to pull files from remote store: " ++ err)), w1)
  | (none, w1) => s.AddLocalConfToRemoteStore w1

/-- The syncer between two finite-map stores. -/
def mapSyncer : Syncer MapState MapState := ⟨MapStore.store, MapStore.store⟩

/-- A stand-in for `path/filepath` on slash-separated paths, for the sample
runs: `Join` puts a slash between its arguments, `Rel` strips `base/` from the
front of the target and fails when the target does not start with it, `Dir`
drops the last path element. -/
def sampleFilepath : Filepath where
  Join := fun dir file => dir ++ "/" ++ file
  Rel := fun base target =>
    if (base ++ "/").data.isPrefixOf target.data then
      (String.mk (target.data.drop (base.data.length + 1)), none)
    else ("", some "Rel: can't make the target relative to the base")
  Dir := fun path => String.mk ((path.data.reverse.dropWhile (fun c => c ≠ '/')).drop 1).reverse

/-- An etcd store on the key space `/conf` in which one self-inflicted event is
expected for key `a`. -/
def sampleEtcd : Etcd3Store :=
  { Prefix := "/conf", updateChan := [], client := ⟨[], fun _ => false⟩,
    skipMap := SkipMap.set SkipMap.empty "a" 1 }

/-- An etcd store on the key space `/conf` whose skip counter for key `a` is
the largest `int`. -/
def sampleEtcdFull : Etcd3Store :=
  { Prefix := "/conf", updateChan := [], client := ⟨[], fun _ => false⟩,
    skipMap := SkipMap.set SkipMap.empty "a" MaxInt }

/-- A run of `n + 1` calls of `skipNext` on one key: `n` calls, then one more. -/
def skipNextRun (n : Nat) (key : String) : List SkipOp :=
  List.replicate n (SkipOp.skipNext key) ++ [SkipOp.skipNext key]

/-- A short run of bookkeeping calls on keys `a` and `b`. -/
def sampleSkipRun : List SkipOp :=
  [.skipNext "a", .shouldSkip "a", .shouldSkip "a", .shouldSkip "b", .skipNext "b"]

/-- A put notification of etcd for `/conf/a`. -/
def sampleEtcdEvent : EtcdEvent := ⟨EventTypePut, "/conf/a", [7]⟩

/-- A disk store on the directory `/conf`, as `NewDiskStore` leaves it: the skip
map is empty. -/
def sampleDisk : DiskStore :=
  { Location := "/conf", updateChan := [], skipMap := SkipMap.empty, calls := [],
    fails := fun _ => false }

/-- The same disk store with a skip counter of 1 for key `a`. -/
def sampleDiskSkipping : DiskStore := { sampleDisk with skipMap := SkipMap.set SkipMap.empty "a" 1 }

/-- A write notification of fsnotify for `/conf/a`. -/
def sampleFsEvent : FsEvent := ⟨"/conf/a", fsnotifyWrite⟩

/-- A stand-in for `ioutil.ReadFile`: every file holds the byte 7. -/
def sampleReadFile : String → Bytes × GoError := fun _ => ([7], none)

/-! ## The removal loop of `AddLocalConfToRemoteStore` -/

namespace Syncer

/-- Iterations that only read items with another key leave the slice as it is. -/
theorem removeInner_noop (key : String) :
    ∀ (count i : Nat) (sl : GoSlice ConfItem),
      (∀ t, t < count → ∃ item, sl.arr[i + t]? = some item ∧ item.Key ≠ key) →
      removeInner key count i sl = some sl
  | 0, _, _, _ => rfl
  | count + 1, i, sl, h => by
    obtain ⟨item, h0, hk⟩ := h 0 (Nat.succ_pos _)
    have h0' : sl.arr[i]? = some item := by simpa using h0
    have hstep : removeStep key sl i = some sl := by
      simp [removeStep, h0', hk]
    simp only [removeInner, hstep]
    apply removeInner_noop key count (i + 1) sl
    intro t ht
    have := h (t + 1) (by omega)
    rwa [show i + (t + 1) = i + 1 + t by omega] at this

/-- A run of `a + b` iterations is a run of `a` followed by a run of `b`. -/
theorem removeInner_add (key : String) :
    ∀ (a b i : Nat) (sl : GoSlice ConfItem),
      removeInner key (a + b) i sl
        = (removeInner key a i sl).bind (removeInner key b (i + a))
  | 0, b, i, sl => by simp [removeInner]
  | a + 1, b, i, sl => by
    rw [show a + 1 + b = (a + b) + 1 by omega]
    simp only [removeInner]
    cases h : removeStep key sl i with
    | none => simp
    | some sl1 =>
      simp only []
      rw [removeInner_add key a b (i + 1) sl1, show i + 1 + a = i + (a + 1) by omega]

/-- After the item at index `pre.length` is removed, every later index of the
range still reads an item of `post`. -/
theorem read_after_removal (pre post rest : List ConfItem) (x : ConfItem) (t : Nat)
    (ht : t < post.length) :
    ∃ item, item ∈ post ∧
      (pre ++ post ++ (x :: (post ++ rest)).drop post.length)[pre.length + 1 + t]? = some item := by
  by_cases h : t + 1 < post.length
  · refine ⟨post[t + 1], List.getElem_mem _, ?_⟩
    rw [List.append_assoc, show pre.length + 1 + t = pre.length + (t + 1) by omega,
      List.getElem?_append_right (Nat.le_add_right _ _), Nat.add_sub_cancel_left,
      List.getElem?_append_left h, List.getElem?_eq_getElem h]
  · have ht1 : t + 1 = post.length := by omega
    refine ⟨post[t], List.getElem_mem _, ?_⟩
    rw [List.append_assoc, show pre.length + 1 + t = pre.length + (t + 1) by omega,
      List.getElem?_append_right (Nat.le_add_right _ _), Nat.add_sub_cancel_left,
      List.getElem?_append_right (by omega), ht1, Nat.sub_self, List.getElem?_drop,
      Nat.add_zero, ← ht1, List.getElem?_cons_succ, List.getElem?_append_left ht,
      List.getElem?_eq_getElem ht]

/-- The inner loop on a slice whose items have pairwise distinct keys: it
does not panic and leaves exactly the items whose key is not `key`. -/
theorem removeInner_spec (key : String) (vis rest : List ConfItem)
    (hnd : (vis.map (fun x => x.Key)).Nodup) :
    ∃ rest1, removeInner key vis.length 0 ⟨vis ++ rest, vis.length⟩
      = some ⟨vis.filter (fun x => x.Key ≠ key) ++ rest1,
              (vis.filter (fun x => x.Key ≠ key)).length⟩ := by
  by_cases hmem : ∃ x, x ∈ vis ∧ x.Key = key
  · obtain ⟨x, hx, hxk⟩ := hmem
    obtain ⟨pre, post, rfl⟩ := List.append_of_mem hx
    have hpre : ∀ y, y ∈ pre → y.Key ≠ key := by
      intro y hy hyk
      rw [List.map_append, List.nodup_append] at hnd
      exact hnd.2.2 (List.mem_map_of_mem (fun x => x.Key) hy)
        (by rw [hyk, ← hxk]; exact List.mem_map_of_mem (fun x => x.Key) (List.mem_cons_self x post))
    have hpost : ∀ y, y ∈ post → y.Key ≠ key := by
      intro y hy hyk
      rw [List.map_append, List.nodup_append, List.map_cons, List.nodup_cons] at hnd
      exact hnd.2.1.1 (by rw [hxk, ← hyk]; exact List.mem_map_of_mem (fun x => x.Key) hy)
    refine ⟨(x :: (post ++ rest)).drop post.length, ?_⟩
    have hfilter : (pre ++ x :: post).filter (fun y => y.Key ≠ key) = pre ++ post := by
      rw [List.filter_append, List.filter_cons]
      simp only [hxk, ne_eq, not_true_eq_false, decide_False, Bool.false_eq_true, if_false]
      rw [List.filter_eq_self.2 (fun y hy => by simpa using hpre y hy),
        List.filter_eq_self.2 (fun y hy => by simpa using hpost y hy)]
    rw [hfilter]
    simp only [List.length_append, List.length_cons]
    rw [removeInner_add, removeInner_noop key pre.length 0]
    · simp only [Option.some_bind, Nat.zero_add, removeInner]
      have hstep : removeStep key ⟨pre ++ x :: post ++ rest, pre.length + (post.length + 1)⟩
            pre.length
          = some ⟨pre ++ post ++ (x :: (post ++ rest)).drop post.length,
                  pre.length + post.length⟩ := by
        have hread : (pre ++ x :: post ++ rest)[pre.length]? = some x := by
          rw [List.append_assoc, List.getElem?_append_right (Nat.le_refl _), Nat.sub_self]
          simp
        have htake : (pre ++ x :: post ++ rest).take pre.length = pre := by simp
        have hdrop : (pre ++ x :: post ++ rest).drop (pre.length + 1) = post ++ rest := by
          rw [List.append_assoc, ← List.drop_drop]
          simp
        have hlast : (pre ++ x :: post ++ rest).drop (pre.length + (post.length + 1) - 1)
            = (x :: (post ++ rest)).drop post.length := by
          rw [List.append_assoc, show pre.length + (post.length + 1) - 1
            = pre.length + post.length by omega, List.drop_append]
          rfl
        simp only [removeStep, hread, hxk, if_true, GoSlice.removeAt]
        rw [if_pos (by simp), htake, hdrop, hlast,
          show pre.length + (post.length + 1) - (pre.length + 1) = post.length by omega]
        simp
      rw [hstep]
      simp only []
      apply removeInner_noop
      intro t ht
      obtain ⟨item, hmem, hread⟩ := read_after_removal pre post rest x t ht
      exact ⟨item, hread, hpost item hmem⟩
    · intro t ht
      refine ⟨pre[t], ?_, hpre _ (List.getElem_mem _)⟩
      rw [Nat.zero_add, List.append_assoc, List.getElem?_append_left ht, List.getElem?_eq_getElem ht]
  · have hall : ∀ y, y ∈ vis → y.Key ≠ key := fun y hy hyk => hmem ⟨y, hy, hyk⟩
    refine ⟨rest, ?_⟩
    rw [List.filter_eq_self.2 (fun y hy => by simpa using hall y hy)]
    apply removeInner_noop
    intro t ht
    refine ⟨vis[t], ?_, hall _ (List.getElem_mem _)⟩
    rw [Nat.zero_add, List.getElem?_append_left ht, List.getElem?_eq_getElem ht]

/-- The whole removal loop on a slice whose items have pairwise distinct keys:
it does not panic and leaves exactly the items whose key no remote item has. -/
theorem removeLoop_spec :
    ∀ (remoteData vis rest : List ConfItem), (vis.map (fun x => x.Key)).Nodup →
      ∃ rest1, removeLoop remoteData ⟨vis ++ rest, vis.length⟩
        = some ⟨vis.filter (fun x => x.Key ∉ remoteData.map (fun y => y.Key)) ++ rest1,
                (vis.filter (fun x => x.Key ∉ remoteData.map (fun y => y.Key))).length⟩
  | [], vis, rest, _ => ⟨rest, by simp [removeLoop]⟩
  | remoteItem :: more, vis, rest, hnd => by
    obtain ⟨rest1, h1⟩ := removeInner_spec remoteItem.Key vis rest hnd
    have hnd1 : ((vis.filter (fun x => x.Key ≠ remoteItem.Key)).map (fun x => x.Key)).Nodup :=
      List.Nodup.sublist (List.Sublist.map _ (List.filter_sublist _)) hnd
    obtain ⟨rest2, h2⟩ := removeLoop_spec more _ rest1 hnd1
    refine ⟨rest2, ?_⟩
    have hff : (vis.filter (fun x => x.Key ≠ remoteItem.Key)).filter
          (fun x => x.Key ∉ more.map (fun y => y.Key))
        = vis.filter (fun x => x.Key ∉ (remoteItem :: more).map (fun y => y.Key)) := by
      rw [List.filter_filter]
      congr 1
      funext x
      simp only [List.map_cons, List.mem_cons, not_or, ne_eq, Bool.decide_and]
      rw [Bool.and_comm]
    simp only [removeLoop, h1]
    rw [h2, hff]

/-- What `putAll` does through the `Put` of the store. -/
theorem putAll_cons {σ : Type} (store : ConfStore σ) (item : ConfItem) (data : List ConfItem)
    (s : σ) :
    putAll store (item :: data) s = putAll store data (store.Put item.Key item.Content s).2 := rfl

/-- The function `AddLocalConfToRemoteStore` when both `List` calls succeed and
the local enumeration has pairwise distinct keys: no panic, `nil` is returned,
and the items put to the remote store are the local items whose key the remote
enumeration lacks, in local order. -/
theorem addLocal_of_lists {σL σR : Type} (s : Syncer σL σR) (w : σL × σR)
    (remoteData localData : List ConfItem) (l : σL) (r : σR)
    (hR : s.RemoteStore.List w.2 = (.ok remoteData, r))
    (hL : s.LocalStore.List w.1 = (.ok localData, l))
    (hnd : (localData.map (fun x => x.Key)).Nodup) :
    s.AddLocalConfToRemoteStore w
      = (.ret none, (l, putAll s.RemoteStore (missingOnRemote remoteData localData) r)) := by
  obtain ⟨rest1, h⟩ := removeLoop_spec remoteData localData [] hnd
  rw [List.append_nil] at h
  simp only [AddLocalConfToRemoteStore, hR, hL, GoSlice.ofList, h, GoSlice.toList]
  rw [List.take_left' rfl]
  rfl

end Syncer

/-! ## The recording store -/

namespace Recorder

/-- The calls a run of `putAll` adds to a recording store. -/
theorem putAll_calls (data : List ConfItem) :
    ∀ s : Recorder, (Syncer.putAll store data s).calls
      = s.calls ++ data.map putCall := by
  induction data with
  | nil => intro s; simp [Syncer.putAll]
  | cons item data ih =>
    intro s
    rw [Syncer.putAll_cons, ih]
    simp [store, record, putCall]

end Recorder

/-! ## The finite-map store -/

namespace MapStore

/-- Reading a key after a `Put`. -/
theorem get_put (key : String) (value : Bytes) (k : String) :
    ∀ m : MapState, get (put key value m) k = if k = key then some value else get m k
  | [] => by
    by_cases h : k = key
    · simp [put, get, h]
    · simp [put, get, h, Ne.symm h]
  | x :: xs => by
    have ih := get_put key value k xs
    by_cases hx : x.Key = key
    · by_cases h : k = key
      · simp [put, get, hx, h]
      · have hxk : ¬ x.Key = k := fun e => h (e.symm.trans hx)
        simp [put, get, hx, h, hxk, Ne.symm h]
    · by_cases hxk : x.Key = k
      · have h : ¬ k = key := fun e => hx (hxk.trans e)
        simp [put, get, hx, hxk, h]
      · simp only [put, hx, if_false]
        simp only [get, List.find?_cons, hxk, decide_False] at ih ⊢
        exact ih

/-- A key is bound exactly when it is among the keys. -/
theorem get_eq_none_iff (k : String) : ∀ m : MapState, get m k = none ↔ k ∉ keys m
  | [] => by simp [get, keys]
  | x :: xs => by
    have ih := get_eq_none_iff k xs
    by_cases hxk : x.Key = k
    · simp [get, keys, hxk]
    · simp only [get, List.find?_cons, hxk, decide_False, keys, List.map_cons, List.mem_cons,
        not_or] at ih ⊢
      rw [ih]
      exact ⟨fun h => ⟨fun e => hxk e.symm, h⟩, fun h => h.2⟩

/-- Reading the head entry. -/
theorem get_cons (x : ConfItem) (xs : MapState) (k : String) :
    get (x :: xs) k = if x.Key = k then some x.Content else get xs k := by
  by_cases hxk : x.Key = k <;> simp [get, List.find?_cons, hxk]

/-- Reading a key in two enumerations put side by side. -/
theorem get_append (k : String) (b : MapState) :
    ∀ a : MapState, get (a ++ b) k = (get a k).or (get b k)
  | [] => by simp [get]
  | x :: xs => by
    rw [List.cons_append, get_cons, get_cons, get_append k b xs]
    by_cases hxk : x.Key = k <;> simp [hxk]

/-- The keys after a `Put`. -/
theorem keys_put (key : String) (value : Bytes) :
    ∀ m : MapState, keys (put key value m) = if key ∈ keys m then keys m else keys m ++ [key]
  | [] => by simp [put, keys]
  | x :: xs => by
    have ih := keys_put key value xs
    by_cases hx : x.Key = key
    · simp [put, keys, hx]
    · have hx' : ¬ key = x.Key := fun e => hx e.symm
      simp only [put, hx, if_false, keys, List.map_cons, List.mem_cons, hx', false_or] at ih ⊢
      rw [ih]
      split <;> simp

/-- A `Put` keeps the keys pairwise distinct. -/
theorem nodup_put (key : String) (value : Bytes) (m : MapState) (h : (keys m).Nodup) :
    (keys (put key value m)).Nodup := by
  rw [keys_put]
  split
  · exact h
  · rename_i hk
    rw [List.nodup_append]
    refine ⟨h, List.nodup_singleton _, ?_⟩
    intro a ha hb
    rw [List.mem_singleton] at hb
    exact hk (hb ▸ ha)

/-- Reading a key after all items of an enumeration were put, one after the
other: the last item with that key wins, and a key the enumeration lacks keeps
its content. -/
theorem get_putAll (k : String) :
    ∀ (data : List ConfItem) (m : MapState),
      get (Syncer.putAll store data m) k = (get data.reverse k).or (get m k)
  | [], m => by simp [Syncer.putAll, get]
  | x :: xs, m => by
    rw [Syncer.putAll_cons, get_putAll k xs, List.reverse_cons, get_append, get_cons]
    show ((get xs.reverse k).or (get (put x.Key x.Content m) k)) = _
    rw [get_put]
    by_cases hxk : x.Key = k
    · cases get xs.reverse k <;> simp [hxk, get]
    · have hkx : ¬ k = x.Key := fun e => hxk e.symm
      cases get xs.reverse k <;> simp [hxk, hkx, get]

/-- In an enumeration with pairwise distinct keys the last item with a key is
the first. -/
theorem get_reverse (k : String) :
    ∀ data : List ConfItem, (keys data).Nodup → get data.reverse k = get data k
  | [], _ => rfl
  | x :: xs, h => by
    have hx : x.Key ∉ keys xs := (List.nodup_cons.1 h).1
    rw [List.reverse_cons, get_append, get_reverse k xs (List.nodup_cons.1 h).2, get_cons, get_cons]
    have hnil : get [] k = none := rfl
    by_cases hxk : x.Key = k
    · have : get xs k = none := (get_eq_none_iff k xs).2 (hxk ▸ hx)
      simp [hxk, this, hnil]
    · cases get xs k <;> simp [hxk, hnil]

/-- A run of `putAll` keeps the keys pairwise distinct. -/
theorem nodup_putAll :
    ∀ (data : List ConfItem) (m : MapState), (keys m).Nodup →
      (keys (Syncer.putAll store data m)).Nodup
  | [], _, h => h
  | x :: xs, m, h => by
    rw [Syncer.putAll_cons]
    exact nodup_putAll xs _ (nodup_put x.Key x.Content m h)

/-- Reading a key among the items whose key the remote enumeration lacks. -/
theorem get_missingOnRemote (remoteData : List ConfItem) (k : String) :
    ∀ m : MapState, get (missingOnRemote remoteData m) k
      = if k ∈ keys remoteData then none else get m k
  | [] => by simp [missingOnRemote, get]
  | x :: xs => by
    have ih := get_missingOnRemote remoteData k xs
    unfold missingOnRemote at ih ⊢
    by_cases hx : x.Key ∈ remoteData.map (fun y => y.Key)
    · rw [List.filter_cons_of_neg (by simpa using hx), ih, get_cons]
      by_cases hxk : x.Key = k
      · have : k ∈ keys remoteData := hxk ▸ hx
        simp [this]
      · simp [hxk]
    · rw [List.filter_cons_of_pos (by simpa using hx), get_cons, ih, get_cons]
      by_cases hxk : x.Key = k
      · have : k ∉ keys remoteData := hxk ▸ hx
        simp [hxk, this]
      · simp [hxk]

end MapStore

/-! ## Startup reconciliation -/

/-- C1: when both `List` calls succeed and the keys of the local enumeration are
pairwise distinct, `AddLocalConfToRemoteStore` returns `nil` and the calls the
remote store receives are its `List` followed by one `Put(key, content)` for each
local item whose key does not occur in the remote enumeration, in local
enumeration order and with the local content, and no other call; the local store
only receives its `List`. -/
theorem addLocal_puts_exactly_missing_keys (remoteData localData : List ConfItem)
    (L R : Recorder) (hR : R.listResult = .ok remoteData) (hL : L.listResult = .ok localData)
    (hnd : (localData.map (fun x => x.Key)).Nodup) :
    (Syncer.AddLocalConfToRemoteStore ⟨Recorder.store, Recorder.store⟩ (L, R)).1 = .ret none ∧
    (Syncer.AddLocalConfToRemoteStore ⟨Recorder.store, Recorder.store⟩ (L, R)).2.2.calls
      = R.calls ++ [Call.list] ++ (missingOnRemote remoteData localData).map putCall ∧
    (Syncer.AddLocalConfToRemoteStore ⟨Recorder.store, Recorder.store⟩ (L, R)).2.1.calls
      = L.calls ++ [Call.list] := by
  have h := Syncer.addLocal_of_lists ⟨Recorder.store, Recorder.store⟩ (L, R) remoteData localData
    (L.record .list) (R.record .list) (by simp [Recorder.store, hR]) (by simp [Recorder.store, hL])
    hnd
  rw [h]
  refine ⟨rfl, ?_, rfl⟩
  simp only [Recorder.putAll_calls, Recorder.record]

/-- Witness of C1: local keys `a`, `b` against remote keys `b`, `c`. -/
theorem addLocal_puts_exactly_missing_keys_witness :
    (failingRecorder sampleRemote).listResult = .ok sampleRemote ∧
    (failingRecorder sampleLocal).listResult = .ok sampleLocal ∧
    (sampleLocal.map (fun x => x.Key)).Nodup ∧
    (Syncer.AddLocalConfToRemoteStore ⟨Recorder.store, Recorder.store⟩
      (failingRecorder sampleLocal, failingRecorder sampleRemote)).2.2.calls
      = [Call.list, Call.put "a" [1]] :=
  ⟨rfl, rfl, by decide,
    (addLocal_puts_exactly_missing_keys sampleRemote sampleLocal (failingRecorder sampleLocal)
      (failingRecorder sampleRemote) rfl rfl (by decide)).2.1.trans (by decide)⟩

/-- Counterexample to C10: on the local enumeration `[a, a]` and the remote
enumeration `[a]` the removal loop of `AddLocalConfToRemoteStore` evaluates
`localData[2:]` on a slice of length 1: the function panics instead of
returning. -/
theorem addLocal_panics_on_repeated_key :
    (Syncer.AddLocalConfToRemoteStore ⟨Recorder.store, Recorder.store⟩
      (failingRecorder [⟨"a", [1]⟩, ⟨"a", [2]⟩], failingRecorder [⟨"a", [3]⟩])).1
      = Outcome.panic := by
  decide

/-- C10, as the code has it: for every remote enumeration and every local
enumeration whose keys are pairwise distinct, the removal loop of
`AddLocalConfToRemoteStore` performs no out-of-range slice operation, so the
function runs to completion and returns `nil` when both `List` calls succeed,
whatever the two stores are. -/
theorem addLocal_completes_of_distinct_keys {σL σR : Type} (s : Syncer σL σR) (w : σL × σR)
    (remoteData localData : List ConfItem) (l : σL) (r : σR)
    (hR : s.RemoteStore.List w.2 = (.ok remoteData, r))
    (hL : s.LocalStore.List w.1 = (.ok localData, l))
    (hnd : (localData.map (fun x => x.Key)).Nodup) :
    (∃ localData1, Syncer.removeLoop remoteData (GoSlice.ofList localData) = some localData1) ∧
    (s.AddLocalConfToRemoteStore w).1 = .ret none := by
  constructor
  · obtain ⟨rest1, h⟩ := Syncer.removeLoop_spec remoteData localData [] hnd
    rw [List.append_nil] at h
    exact ⟨_, h⟩
  · rw [Syncer.addLocal_of_lists s w remoteData localData l r hR hL hnd]

/-- Witness of the amended C10: local keys `a`, `b` against remote keys `b`,
`c`, between two finite-map stores. -/
theorem addLocal_completes_of_distinct_keys_witness :
    mapSyncer.RemoteStore.List (sampleLocal, sampleRemote).2 = (.ok sampleRemote, sampleRemote) ∧
    mapSyncer.LocalStore.List (sampleLocal, sampleRemote).1 = (.ok sampleLocal, sampleLocal) ∧
    (sampleLocal.map (fun x => x.Key)).Nodup ∧
    (mapSyncer.AddLocalConfToRemoteStore (sampleLocal, sampleRemote)).1 = .ret none :=
  ⟨rfl, rfl, by decide,
    (addLocal_completes_of_distinct_keys mapSyncer (sampleLocal, sampleRemote) sampleRemote
      sampleLocal sampleLocal sampleRemote rfl rfl (by decide)).2⟩

/-- C6: `PullFromRemote` returns an error exactly when the `List` of the remote
store fails; the calls the local store receives are none in that case and, when
`List` succeeds, one `Put(item.Key, item.Content)` per enumerated item in
enumeration order, whatever the `Put` calls return; the remote store only
receives the `List`. -/
theorem pullFromRemote_error_iff_list_fails (L R : Recorder) :
    ((Syncer.PullFromRemote ⟨Recorder.store, Recorder.store⟩ (L, R)).1 ≠ none
      ↔ ∃ err, R.listResult = .error err) ∧
    (Syncer.PullFromRemote ⟨Recorder.store, Recorder.store⟩ (L, R)).2.1.calls
      = L.calls ++ (match R.listResult with
          | .error _ => []
          | .ok data => data.map putCall) ∧
    (Syncer.PullFromRemote ⟨Recorder.store, Recorder.store⟩ (L, R)).2.2.calls
      = R.calls ++ [Call.list] := by
  cases h : R.listResult with
  | error err =>
    have hl : Recorder.store.List R = (.error err, R.record .list) := by simp [Recorder.store, h]
    simp [Syncer.PullFromRemote, hl, Recorder.record]
  | ok data =>
    have hl : Recorder.store.List R = (.ok data, R.record .list) := by simp [Recorder.store, h]
    simp [Syncer.PullFromRemote, hl, Recorder.putAll_calls, Recorder.record]

/-- The state the startup sequence leaves two finite-map stores in. -/
theorem reconcile_eq (L R : MapState) (hL : (MapStore.keys L).Nodup) :
    mapSyncer.reconcile (L, R)
      = (.ret none, (Syncer.putAll MapStore.store R L,
          Syncer.putAll MapStore.store
            (missingOnRemote R (Syncer.putAll MapStore.store R L)) R)) := by
  have hpull : mapSyncer.PullFromRemote (L, R)
      = (none, (Syncer.putAll MapStore.store R L, R)) := rfl
  simp only [Syncer.reconcile, hpull]
  exact Syncer.addLocal_of_lists mapSyncer _ R _ _ R rfl rfl (MapStore.nodup_putAll R L hL)

/-- C2: with both stores finite maps, `PullFromRemote` followed by
`AddLocalConfToRemoteStore` returns without error and leaves the two stores
holding the same map: every key reads the same on both sides, the keys are
those of the initial local map together with those of the initial remote map,
a key of the remote map holds the remote content and a key only the local map
had holds the local content. -/
theorem reconcile_converges (L R : MapState) (hL : (MapStore.keys L).Nodup)
    (hR : (MapStore.keys R).Nodup) :
    (mapSyncer.reconcile (L, R)).1 = .ret none ∧
    (MapStore.keys (mapSyncer.reconcile (L, R)).2.1).Nodup ∧
    (MapStore.keys (mapSyncer.reconcile (L, R)).2.2).Nodup ∧
    ∀ k : String,
      MapStore.get (mapSyncer.reconcile (L, R)).2.1 k
        = MapStore.get (mapSyncer.reconcile (L, R)).2.2 k ∧
      (k ∈ MapStore.keys (mapSyncer.reconcile (L, R)).2.1
        ↔ k ∈ MapStore.keys L ∨ k ∈ MapStore.keys R) ∧
      (k ∈ MapStore.keys R → MapStore.get (mapSyncer.reconcile (L, R)).2.1 k = MapStore.get R k) ∧
      (k ∉ MapStore.keys R → MapStore.get (mapSyncer.reconcile (L, R)).2.1 k = MapStore.get L k) := by
  rw [reconcile_eq L R hL]
  have hL1 := MapStore.nodup_putAll R L hL
  have hmiss : (MapStore.keys (missingOnRemote R (Syncer.putAll MapStore.store R L))).Nodup :=
    List.Nodup.sublist (List.Sublist.map _ (List.filter_sublist _)) hL1
  refine ⟨rfl, hL1, MapStore.nodup_putAll _ R hR, fun k => ?_⟩
  have hloc : MapStore.get (Syncer.putAll MapStore.store R L) k
      = (MapStore.get R k).or (MapStore.get L k) := by
    rw [MapStore.get_putAll, MapStore.get_reverse k R hR]
  have hrem : MapStore.get (Syncer.putAll MapStore.store
        (missingOnRemote R (Syncer.putAll MapStore.store R L)) R) k
      = (if k ∈ MapStore.keys R then none else MapStore.get (Syncer.putAll MapStore.store R L) k).or
          (MapStore.get R k) := by
    rw [MapStore.get_putAll, MapStore.get_reverse k _ hmiss, MapStore.get_missingOnRemote]
  have hkeys : ∀ m : MapState, k ∈ MapStore.keys m ↔ MapStore.get m k ≠ none := fun m => by
    rw [ne_eq, MapStore.get_eq_none_iff, not_not]
  simp only []
  rw [hrem, hkeys (Syncer.putAll MapStore.store R L), hkeys L, hloc]
  by_cases hk : k ∈ MapStore.keys R
  · have hn : MapStore.get R k ≠ none := (hkeys R).1 hk
    rw [if_pos hk]
    cases hg : MapStore.get R k with
    | none => exact absurd hg hn
    | some v => simp [hk]
  · have hn : MapStore.get R k = none := (MapStore.get_eq_none_iff k R).2 hk
    rw [if_neg hk, hn]
    cases MapStore.get L k <;> simp [hk]

/-- Witness of C2: local keys `a`, `b` and remote keys `b`, `c` with different
contents under `b`; both stores end with `a` (local content), `b` (remote
content) and `c`. -/
theorem reconcile_converges_witness :
    (MapStore.keys sampleLocal).Nodup ∧ (MapStore.keys sampleRemote).Nodup ∧
    (mapSyncer.reconcile (sampleLocal, sampleRemote)).2
      = ([⟨"a", [1]⟩, ⟨"b", [3]⟩, ⟨"c", [4]⟩], [⟨"b", [3]⟩, ⟨"c", [4]⟩, ⟨"a", [1]⟩]) ∧
    (mapSyncer.reconcile (sampleLocal, sampleRemote)).1 = .ret none :=
  ⟨by decide, by decide, by decide,
    (reconcile_converges sampleLocal sampleRemote (by decide) (by decide)).1⟩

/-- C7: with the local store a finite map and a remote store whose `List`
answers the same both times, a second `PullFromRemote` leaves every key of the
local map with the content it had after the first. -/
theorem pullFromRemote_idempotent (l : MapState) (remote : Recorder) (k : String) :
    MapStore.get
        (Syncer.PullFromRemote ⟨MapStore.store, Recorder.store⟩
          (Syncer.PullFromRemote ⟨MapStore.store, Recorder.store⟩ (l, remote)).2).2.1 k
      = MapStore.get
          (Syncer.PullFromRemote ⟨MapStore.store, Recorder.store⟩ (l, remote)).2.1 k := by
  cases h : remote.listResult with
  | error err =>
    have hl : ∀ r : Recorder, r.listResult = remote.listResult →
        Recorder.store.List r = (.error err, r.record .list) := fun r hr => by
      simp [Recorder.store, hr, h]
    simp only [Syncer.PullFromRemote, hl remote rfl, hl (remote.record .list) rfl]
  | ok data =>
    have hl : ∀ r : Recorder, r.listResult = remote.listResult →
        Recorder.store.List r = (.ok data, r.record .list) := fun r hr => by
      simp [Recorder.store, hr, h]
    simp only [Syncer.PullFromRemote, hl remote rfl, hl (remote.record .list) rfl]
    rw [MapStore.get_putAll, MapStore.get_putAll]
    cases MapStore.get data.reverse k <;> simp

/-! ## Propagation -/

/-- The calls a forwarding loop adds to a recording store. -/
theorem propagate_calls (evs : List ConfEvent) :
    ∀ dst : Recorder, (evs.foldl (Syncer.propagate Recorder.store) dst).calls
      = dst.calls ++ evs.flatMap forwardedCalls := by
  induction evs with
  | nil => intro dst; simp
  | cons ev evs ih =>
    intro dst
    rw [List.foldl_cons, ih, List.flatMap_cons, ← List.append_assoc]
    congr 1
    unfold Syncer.propagate forwardedCalls
    split
    · simp [Recorder.store, Recorder.record]
    · split <;> simp [Recorder.store, Recorder.record]

/-- C3: on every finite sequence of events and for every assignment of success
or failure to the calls (the `fails` of the recording store), each forwarding
loop of `KeepInSync` issues to the opposite store exactly the calls of
`forwardedCalls`, event by event and in order: `Put(ev.Key, ev.Content)` for a
`ConfPut` event, `Delete(ev.Key)` for a `ConfDelete` event, nothing for any
other event type. -/
theorem keepInSync_forwards_in_order {σ : Type} (other : ConfStore σ) (evs : List ConfEvent)
    (dst : Recorder) :
    (Syncer.KeepInSync_localToRemote ⟨other, Recorder.store⟩ evs dst).calls
      = dst.calls ++ evs.flatMap forwardedCalls ∧
    (Syncer.KeepInSync_remoteToLocal ⟨Recorder.store, other⟩ evs dst).calls
      = dst.calls ++ evs.flatMap forwardedCalls :=
  ⟨propagate_calls evs dst, propagate_calls evs dst⟩

/-! ## Echo suppression in the etcd store -/

/-- Reading a key of a skip map after an assignment. -/
theorem SkipMap.set_apply (m : SkipMap) (key : String) (v : Int) (k : String) :
    SkipMap.set m key v k = if k = key then some v else m k := rfl

/-- C4: in the watch handler of the etcd store, for a put or delete
notification whose relative key is `k`: when the skip counter of `k` is
positive nothing is sent on the update stream, the counter of `k` goes down by
one and every other key is unchanged; when the counter is 0 or `k` is absent,
exactly one event with key `k` and the matching type is sent (with the notified
value as content for a put) and the skip map is unchanged. -/
theorem watchEvent_skips_or_forwards (fp : Filepath) (cs : Etcd3Store) (ev : EtcdEvent)
    (k : String) (hk : (fp.Rel cs.Prefix ev.Key).1 = k)
    (hty : ev.Type_ = EventTypePut ∨ ev.Type_ = EventTypeDelete) :
    (0 < SkipMap.get cs.skipMap k →
      (Etcd3Store.watchEvent fp cs ev).updateChan = cs.updateChan ∧
      (Etcd3Store.watchEvent fp cs ev).skipMap k = some (SkipMap.get cs.skipMap k - 1) ∧
      ∀ k1, k1 ≠ k → (Etcd3Store.watchEvent fp cs ev).skipMap k1 = cs.skipMap k1) ∧
    ((cs.skipMap k = some 0 ∨ cs.skipMap k = none) →
      (Etcd3Store.watchEvent fp cs ev).updateChan
        = cs.updateChan ++
          [if ev.Type_ = EventTypePut then { Type_ := ConfPut, Key := k, Content := ev.Value }
           else { Type_ := ConfDelete, Key := k, Content := [] }] ∧
      (Etcd3Store.watchEvent fp cs ev).skipMap = cs.skipMap) := by
  have hpd : EventTypePut ≠ EventTypeDelete := by decide
  constructor
  · intro hpos
    have hskip : cs.shouldSkip k
        = (true, { cs with skipMap := SkipMap.set cs.skipMap k (SkipMap.get cs.skipMap k - 1) }) := by
      simp [Etcd3Store.shouldSkip, Int.not_le.2 hpos]
    rcases hty with h | h
    · simp only [Etcd3Store.watchEvent, hk, h, hpd, if_false, if_true, hskip]
      refine ⟨trivial, by simp [SkipMap.set_apply], fun k1 hk1 => by simp [SkipMap.set_apply, hk1]⟩
    · simp only [Etcd3Store.watchEvent, hk, h, if_true, hskip]
      refine ⟨trivial, by simp [SkipMap.set_apply], fun k1 hk1 => by simp [SkipMap.set_apply, hk1]⟩
  · intro hzero
    have hget : SkipMap.get cs.skipMap k ≤ 0 := by
      rcases hzero with h | h <;> simp [SkipMap.get, h]
    have hskip : cs.shouldSkip k = (false, cs) := by
      simp [Etcd3Store.shouldSkip, hget]
    rcases hty with h | h
    · simp only [Etcd3Store.watchEvent, hk, h, hpd, if_false, if_true, hskip, Etcd3Store.send]
      exact ⟨trivial, trivial⟩
    · simp only [Etcd3Store.watchEvent, hk, h, hpd.symm, if_false, if_true, hskip, Etcd3Store.send]
      exact ⟨trivial, trivial⟩

/-- Witness of C4: a put notification for `/conf/a` while one self-inflicted
event is expected for `a` is dropped. -/
theorem watchEvent_skips_or_forwards_witness :
    (sampleFilepath.Rel sampleEtcd.Prefix sampleEtcdEvent.Key).1 = "a" ∧
    (sampleEtcdEvent.Type_ = EventTypePut ∨ sampleEtcdEvent.Type_ = EventTypeDelete) ∧
    0 < SkipMap.get sampleEtcd.skipMap "a" ∧
    (Etcd3Store.watchEvent sampleFilepath sampleEtcd sampleEtcdEvent).updateChan = [] ∧
    (Etcd3Store.watchEvent sampleFilepath sampleEtcd sampleEtcdEvent).skipMap "a" = some 0 :=
  ⟨by decide, by decide, by decide,
    ((watchEvent_skips_or_forwards sampleFilepath sampleEtcd sampleEtcdEvent "a" (by decide)
      (by decide)).1 (by decide)).1,
    ((watchEvent_skips_or_forwards sampleFilepath sampleEtcd sampleEtcdEvent "a" (by decide)
      (by decide)).1 (by decide)).2.1⟩

/-- An exact result within the range of `int` is not changed by wrapping. -/
theorem wrapInt_of_range (x : Int) (hlo : MinInt ≤ x) (hhi : x ≤ MaxInt) : wrapInt x = x := by
  unfold wrapInt MinInt MaxInt at *
  omega

/-- One more than the largest `int` wraps to the smallest. -/
theorem wrapInt_max_succ : wrapInt (MaxInt + 1) = MinInt := by
  unfold wrapInt MinInt MaxInt
  omega

/-- One bookkeeping call keeps every counter between 0 and the number of
`skipNext` calls made so far, as long as that number stays below 2^63. -/
theorem SkipOp.run_bounds (cs : Etcd3Store) (op : SkipOp) (n : Nat)
    (h : ∀ key, 0 ≤ SkipMap.get cs.skipMap key ∧ SkipMap.get cs.skipMap key ≤ n)
    (hn : ((n + (if op.isSkipNext then 1 else 0 : Nat) : Nat) : Int) ≤ MaxInt) :
    ∀ key, 0 ≤ SkipMap.get (SkipOp.run cs op).skipMap key ∧
      SkipMap.get (SkipOp.run cs op).skipMap key ≤ n + (if op.isSkipNext then 1 else 0 : Nat) := by
  intro key
  cases op with
  | skipNext k =>
    have hk := h k
    simp only [SkipOp.isSkipNext, if_true] at hn
    have hw : wrapInt (SkipMap.get cs.skipMap k + 1) = SkipMap.get cs.skipMap k + 1 :=
      wrapInt_of_range _ (by unfold MinInt; omega) (by omega)
    simp only [SkipOp.run, Etcd3Store.skipNext, SkipOp.isSkipNext, if_true, hw]
    by_cases hkk : key = k
    · subst hkk
      simp only [SkipMap.get, SkipMap.set_apply, if_true, Option.getD_some]
      unfold SkipMap.get at hk
      omega
    · have := h key
      simp only [SkipMap.get, SkipMap.set_apply, hkk, if_false] at this ⊢
      omega
  | shouldSkip k =>
    simp only [SkipOp.run, Etcd3Store.shouldSkip, SkipOp.isSkipNext, Bool.false_eq_true, if_false,
      Nat.add_zero]
    split
    · exact h key
    · rename_i hpos
      by_cases hkk : key = k
      · subst hkk
        have hk := h key
        simp only [SkipMap.get, SkipMap.set_apply, if_true, Option.getD_some]
        unfold SkipMap.get at hpos hk
        omega
      · have := h key
        simp only [SkipMap.get, SkipMap.set_apply, hkk, if_false] at this ⊢
        exact this

/-- A run of bookkeeping calls with fewer than 2^63 calls of `skipNext` in all
keeps every counter between 0 and the number of `skipNext` calls made. -/
theorem SkipOp.foldl_run_bounds :
    ∀ (ops : List SkipOp) (cs : Etcd3Store) (n : Nat),
      (∀ key, 0 ≤ SkipMap.get cs.skipMap key ∧ SkipMap.get cs.skipMap key ≤ n) →
      ((n + ops.countP SkipOp.isSkipNext : Nat) : Int) ≤ MaxInt →
      ∀ key, 0 ≤ SkipMap.get (ops.foldl SkipOp.run cs).skipMap key ∧
        SkipMap.get (ops.foldl SkipOp.run cs).skipMap key ≤ (n + ops.countP SkipOp.isSkipNext : Nat)
  | [], cs, n, h, _ => by simpa using h
  | op :: ops, cs, n, h, hn => by
    rw [List.countP_cons] at hn ⊢
    have hstep := SkipOp.run_bounds cs op n h (by omega)
    have ih := SkipOp.foldl_run_bounds ops (SkipOp.run cs op)
      (n + (if op.isSkipNext then 1 else 0 : Nat)) hstep
      (by rw [show n + (if op.isSkipNext = true then 1 else 0) + List.countP SkipOp.isSkipNext ops
            = n + (List.countP SkipOp.isSkipNext ops + if op.isSkipNext = true then 1 else 0)
            by omega]; exact hn)
    intro key
    have := ih key
    rw [List.foldl_cons, show n + (List.countP SkipOp.isSkipNext ops
      + if op.isSkipNext = true then 1 else 0)
      = n + (if op.isSkipNext = true then 1 else 0) + List.countP SkipOp.isSkipNext ops by omega]
    exact this

/-- The counter of a key right after a call of `skipNext` on it. -/
theorem SkipOp.run_skipNext_same (cs : Etcd3Store) (key : String) :
    (SkipOp.run cs (.skipNext key)).skipMap key
      = some (wrapInt (SkipMap.get cs.skipMap key + 1)) := by
  simp [SkipOp.run, Etcd3Store.skipNext, SkipMap.set_apply]

/-- The counter of a key after `n` calls of `skipNext` on it that stay within
the range of `int`. -/
theorem SkipOp.foldl_replicate_skipNext (key : String) :
    ∀ (n : Nat) (cs : Etcd3Store) (c : Int), SkipMap.get cs.skipMap key = c → MinInt ≤ c →
      c + n ≤ MaxInt →
      SkipMap.get ((List.replicate n (SkipOp.skipNext key)).foldl SkipOp.run cs).skipMap key
        = c + n
  | 0, cs, c, hc, _, _ => by
    rw [List.replicate_zero, List.foldl_nil, hc]
    omega
  | n + 1, cs, c, hc, hlo, hhi => by
    have hw : wrapInt (c + 1) = c + 1 := wrapInt_of_range _ (by omega) (by omega)
    have h1 : SkipMap.get (SkipOp.run cs (.skipNext key)).skipMap key = c + 1 := by
      unfold SkipMap.get
      rw [SkipOp.run_skipNext_same, hc, hw]
      rfl
    rw [List.replicate_succ, List.foldl_cons,
      SkipOp.foldl_replicate_skipNext key n _ (c + 1) h1 (by omega) (by omega)]
    omega

/-- A run of `n + 1` calls of `skipNext` on a key whose counter is `n` below the
largest `int` leaves the counter at the smallest `int`. -/
theorem SkipOp.skipNextRun_wraps (key : String) (n : Nat) (cs : Etcd3Store) (c : Int)
    (hc : SkipMap.get cs.skipMap key = c) (hlo : MinInt ≤ c) (hhi : c + n = MaxInt) :
    ((skipNextRun n key).foldl SkipOp.run cs).skipMap key = some MinInt := by
  unfold skipNextRun
  rw [List.foldl_append, List.foldl_cons, List.foldl_nil, SkipOp.run_skipNext_same,
    SkipOp.foldl_replicate_skipNext key n cs c hc hlo (by omega), hhi, wrapInt_max_succ]

/-- C5, as the code has it: from the empty skip map of a new etcd store, after
every finite sequence of `skipNext` and `shouldSkip` calls on arbitrary keys
that holds fewer than 2^63 calls of `skipNext`, every counter in the map is at
least 0; and `shouldSkip` on a key absent from the map answers `false` and leaves
the store, its skip map included, as it was. -/
theorem skip_counters_never_negative (prefixArg : String) (fails : Nat → Bool)
    (ops : List SkipOp) (key : String) (hcount : ops.countP SkipOp.isSkipNext < 2 ^ 63) :
    (∀ v, (ops.foldl SkipOp.run (Etcd3Store.new prefixArg fails)).skipMap key = some v → 0 ≤ v) ∧
    (∀ cs : Etcd3Store, cs.skipMap key = none →
      cs.shouldSkip key = (false, cs) ∧ (cs.shouldSkip key).2.skipMap key = none) := by
  constructor
  · intro v hv
    have h := (SkipOp.foldl_run_bounds ops (Etcd3Store.new prefixArg fails) 0
      (fun _ => by simp [Etcd3Store.new, SkipMap.get, SkipMap.empty])
      (by unfold MaxInt; omega) key).1
    simpa [SkipMap.get, hv] using h
  · intro cs hnone
    have h : cs.shouldSkip key = (false, cs) := by
      simp [Etcd3Store.shouldSkip, SkipMap.get, hnone]
    rw [h]
    exact ⟨rfl, hnone⟩

/-- Witness of the amended C5: a short run on keys `a` and `b`. -/
theorem skip_counters_never_negative_witness :
    sampleSkipRun.countP SkipOp.isSkipNext < 2 ^ 63 ∧
    (sampleSkipRun.foldl SkipOp.run (Etcd3Store.new "/conf" (fun _ => false))).skipMap "a"
      = some 0 ∧
    (∀ v, (sampleSkipRun.foldl SkipOp.run (Etcd3Store.new "/conf" (fun _ => false))).skipMap "a"
      = some v → 0 ≤ v) :=
  ⟨by decide, by decide,
    (skip_counters_never_negative "/conf" (fun _ => false) sampleSkipRun "a" (by decide)).1⟩

/-- Counterexample to C5: from the empty skip map of a new etcd store, 2^63 calls
of `skipNext` on key `a` leave the counter of `a` at the smallest `int`, which
is below 0. -/
theorem skip_counter_negative_after_wrap :
    ((skipNextRun 9223372036854775807 "a").foldl SkipOp.run
      (Etcd3Store.new "/conf" (fun _ => false))).skipMap "a" = some MinInt ∧
    MinInt < 0 :=
  ⟨SkipOp.skipNextRun_wraps "a" 9223372036854775807 (Etcd3Store.new "/conf" (fun _ => false)) 0
    rfl (by decide) (by decide), by decide⟩

/-- What `Etcd3Store.Put` and `Etcd3Store.Delete` do to the skip map and to the
backend, with the counter as Go computes it. -/
theorem Etcd3Store.write_effect (fp : Filepath) (cs : Etcd3Store) (key : String)
    (value : Bytes) :
    ((Etcd3Store.Put fp cs key value).2.skipMap key
        = some (wrapInt (SkipMap.get cs.skipMap key + 1)) ∧
      (∀ k, k ≠ key → (Etcd3Store.Put fp cs key value).2.skipMap k = cs.skipMap k) ∧
      (∃ call : EtcdCall,
        (Etcd3Store.Put fp cs key value).2.client.requests = cs.client.requests ++ [call] ∧
        call.req = .put (fp.Join cs.Prefix key) value ∧
        call.skipMapAtIssue key = some (wrapInt (SkipMap.get cs.skipMap key + 1))) ∧
      ((Etcd3Store.Put fp cs key value).1 ≠ none
        ↔ cs.client.fails cs.client.requests.length = true)) ∧
    ((Etcd3Store.Delete fp cs key).2.skipMap key
        = some (wrapInt (SkipMap.get cs.skipMap key + 1)) ∧
      (∀ k, k ≠ key → (Etcd3Store.Delete fp cs key).2.skipMap k = cs.skipMap k) ∧
      (∃ call : EtcdCall,
        (Etcd3Store.Delete fp cs key).2.client.requests = cs.client.requests ++ [call] ∧
        call.req = .delete (fp.Join cs.Prefix key) ∧
        call.skipMapAtIssue key = some (wrapInt (SkipMap.get cs.skipMap key + 1))) ∧
      ((Etcd3Store.Delete fp cs key).1 ≠ none
        ↔ cs.client.fails cs.client.requests.length = true)) := by
  constructor
  · cases hf : cs.client.fails cs.client.requests.length
    · simp only [Etcd3Store.Put, Etcd3Store.request, Etcd3Store.skipNext, hf]
      refine ⟨by simp [SkipMap.set_apply], fun k hk => by simp [SkipMap.set_apply, hk],
        ⟨_, rfl, rfl, by simp [SkipMap.set_apply]⟩, by simp⟩
    · simp only [Etcd3Store.Put, Etcd3Store.request, Etcd3Store.skipNext, hf]
      refine ⟨by simp [SkipMap.set_apply], fun k hk => by simp [SkipMap.set_apply, hk],
        ⟨_, rfl, rfl, by simp [SkipMap.set_apply]⟩, by simp⟩
  · cases hf : cs.client.fails cs.client.requests.length
    · simp only [Etcd3Store.Delete, Etcd3Store.request, Etcd3Store.skipNext, hf]
      refine ⟨by simp [SkipMap.set_apply], fun k hk => by simp [SkipMap.set_apply, hk],
        ⟨_, rfl, rfl, by simp [SkipMap.set_apply]⟩, by simp⟩
    · simp only [Etcd3Store.Delete, Etcd3Store.request, Etcd3Store.skipNext, hf]
      refine ⟨by simp [SkipMap.set_apply], fun k hk => by simp [SkipMap.set_apply, hk],
        ⟨_, rfl, rfl, by simp [SkipMap.set_apply]⟩, by simp⟩

/-- C9, as the code has it: when the skip counter of `key` is an `int` below the
largest one, one call of `Etcd3Store.Put(key, value)` or `Etcd3Store.Delete(key)`
raises the counter of `key` by exactly one and leaves every other key as it was;
the one backend request it issues was issued with the counter already raised;
and this holds whether the request succeeds or fails (the call returns an error
exactly when the request fails). -/
theorem etcd_write_raises_skip_counter_first (fp : Filepath) (cs : Etcd3Store) (key : String)
    (value : Bytes) (hlo : MinInt ≤ SkipMap.get cs.skipMap key)
    (hhi : SkipMap.get cs.skipMap key < MaxInt) :
    ((Etcd3Store.Put fp cs key value).2.skipMap key = some (SkipMap.get cs.skipMap key + 1) ∧
      (∀ k, k ≠ key → (Etcd3Store.Put fp cs key value).2.skipMap k = cs.skipMap k) ∧
      (∃ call : EtcdCall,
        (Etcd3Store.Put fp cs key value).2.client.requests = cs.client.requests ++ [call] ∧
        call.req = .put (fp.Join cs.Prefix key) value ∧
        call.skipMapAtIssue key = some (SkipMap.get cs.skipMap key + 1)) ∧
      ((Etcd3Store.Put fp cs key value).1 ≠ none
        ↔ cs.client.fails cs.client.requests.length = true)) ∧
    ((Etcd3Store.Delete fp cs key).2.skipMap key = some (SkipMap.get cs.skipMap key + 1) ∧
      (∀ k, k ≠ key → (Etcd3Store.Delete fp cs key).2.skipMap k = cs.skipMap k) ∧
      (∃ call : EtcdCall,
        (Etcd3Store.Delete fp cs key).2.client.requests = cs.client.requests ++ [call] ∧
        call.req = .delete (fp.Join cs.Prefix key) ∧
        call.skipMapAtIssue key = some (SkipMap.get cs.skipMap key + 1)) ∧
      ((Etcd3Store.Delete fp cs key).1 ≠ none
        ↔ cs.client.fails cs.client.requests.length = true)) := by
  have hw : wrapInt (SkipMap.get cs.skipMap key + 1) = SkipMap.get cs.skipMap key + 1 :=
    wrapInt_of_range _ (by omega) (by omega)
  have h := Etcd3Store.write_effect fp cs key value
  rw [hw] at h
  exact h

/-- Witness of the amended C9: a `Put` of key `a` on a store whose skip counter
for `a` is 1. -/
theorem etcd_write_raises_skip_counter_first_witness :
    MinInt ≤ SkipMap.get sampleEtcd.skipMap "a" ∧
    SkipMap.get sampleEtcd.skipMap "a" < MaxInt ∧
    (Etcd3Store.Put sampleFilepath sampleEtcd "a" [7]).2.skipMap "a"
      = some (SkipMap.get sampleEtcd.skipMap "a" + 1) :=
  ⟨by decide, by decide,
    (etcd_write_raises_skip_counter_first sampleFilepath sampleEtcd "a" [7] (by decide)
      (by decide)).1.1⟩

/-- Counterexample to C9: on a store whose skip counter for `a` is the largest
`int`, `Put` and `Delete` of key `a` leave the counter at the smallest `int`,
not at one more than it was. -/
theorem etcd_write_wraps_skip_counter_at_max :
    SkipMap.get sampleEtcdFull.skipMap "a" = MaxInt ∧
    (Etcd3Store.Put sampleFilepath sampleEtcdFull "a" [7]).2.skipMap "a" = some MinInt ∧
    (Etcd3Store.Put sampleFilepath sampleEtcdFull "a" [7]).2.skipMap "a"
      ≠ some (SkipMap.get sampleEtcdFull.skipMap "a" + 1) ∧
    (Etcd3Store.Delete sampleFilepath sampleEtcdFull "a").2.skipMap "a" = some MinInt ∧
    (Etcd3Store.Delete sampleFilepath sampleEtcdFull "a").2.skipMap "a"
      ≠ some (SkipMap.get sampleEtcdFull.skipMap "a" + 1) := by
  refine ⟨by decide, by decide, by decide, by decide, by decide⟩

/-! ## Echo suppression in the disk store -/

namespace DiskStore

/-- The function `writeFile` leaves the skip map as it is. -/
theorem writeFile_skipMap (fp : Filepath) (cs : DiskStore) (path : String) (content : Bytes) :
    (cs.writeFile fp path content).2.skipMap = cs.skipMap := by
  cases h1 : cs.fails (cs.calls ++ [DiskCall.watcherRemove path]).length <;>
    cases h2 : cs.fails (cs.calls ++ [DiskCall.watcherRemove path]
      ++ [DiskCall.mkdirAll (fp.Dir path)]).length <;>
    cases h3 : cs.fails (cs.calls ++ [DiskCall.watcherRemove path]
      ++ [DiskCall.mkdirAll (fp.Dir path)] ++ [DiskCall.writeFile path content]).length <;>
    simp only [writeFile, sys, h1, h2, h3, Bool.false_eq_true, if_false, if_true]

/-- The function `writeFile` first removes the fsnotify watch on the path. -/
theorem writeFile_calls (fp : Filepath) (cs : DiskStore) (path : String) (content : Bytes) :
    ∃ more, (cs.writeFile fp path content).2.calls
      = cs.calls ++ DiskCall.watcherRemove path :: more := by
  cases h1 : cs.fails (cs.calls ++ [DiskCall.watcherRemove path]).length <;>
    cases h2 : cs.fails (cs.calls ++ [DiskCall.watcherRemove path]
      ++ [DiskCall.mkdirAll (fp.Dir path)]).length <;>
    cases h3 : cs.fails (cs.calls ++ [DiskCall.watcherRemove path]
      ++ [DiskCall.mkdirAll (fp.Dir path)] ++ [DiskCall.writeFile path content]).length <;>
    simp only [writeFile, sys, h1, h2, h3, Bool.false_eq_true, if_false, if_true] <;>
    simp only [List.append_assoc, List.cons_append, List.nil_append] <;>
    exact ⟨_, rfl⟩

end DiskStore

/-- C8, as the code has it: the disk store does not use its skip map. `Put` and
`Delete` leave every skip counter as it was and start by removing the fsnotify
watch on the file they are about to touch; the file watch handler sends one
event for a write or remove notification whose relative path `filepath.Rel`
computes, whatever the skip counters are, and leaves the skip map as it was. -/
theorem diskStore_unwatches_and_never_skips (fp : Filepath)
    (readFile : String → Bytes × GoError) (cs : DiskStore) (key : String) (content : Bytes)
    (ev : FsEvent) (rel : String) (hrel : fp.Rel cs.Location ev.Name = (rel, none))
    (hop : ev.Op = fsnotifyWrite ∨ ev.Op = fsnotifyRemove) :
    (DiskStore.Put fp cs key content).2.skipMap = cs.skipMap ∧
    (DiskStore.Delete fp cs key).2.skipMap = cs.skipMap ∧
    (∃ more, (DiskStore.Put fp cs key content).2.calls
      = cs.calls ++ DiskCall.watcherRemove (fp.Join cs.Location key) :: more) ∧
    (∃ more, (DiskStore.Delete fp cs key).2.calls
      = cs.calls ++ DiskCall.watcherRemove (fp.Join cs.Location key) :: more) ∧
    (DiskStore.fileWatchLoop fp readFile [ev] cs).updateChan
      = cs.updateChan ++
        [if ev.Op = fsnotifyWrite then
           { Type_ := ConfPut, Key := rel, Content := (readFile ev.Name).1 }
         else { Type_ := ConfDelete, Key := rel, Content := [] }] ∧
    (DiskStore.fileWatchLoop fp readFile [ev] cs).skipMap = cs.skipMap := by
  have hwr : fsnotifyWrite ≠ fsnotifyRemove := by decide
  refine ⟨DiskStore.writeFile_skipMap fp cs _ content, ?_, DiskStore.writeFile_calls fp cs _ content,
    ?_, ?_, ?_⟩
  · cases h1 : cs.fails cs.calls.length <;>
      cases h2 : cs.fails (cs.calls ++ [DiskCall.watcherRemove (fp.Join cs.Location key)]).length <;>
      simp only [DiskStore.Delete, DiskStore.sys, h1, h2, Bool.false_eq_true, if_false, if_true]
  · cases h1 : cs.fails cs.calls.length <;>
      cases h2 : cs.fails (cs.calls ++ [DiskCall.watcherRemove (fp.Join cs.Location key)]).length <;>
      simp only [DiskStore.Delete, DiskStore.sys, h1, h2, Bool.false_eq_true, if_false, if_true,
        List.append_assoc, List.cons_append, List.nil_append] <;>
      exact ⟨_, rfl⟩
  · rcases hop with h | h
    · simp only [DiskStore.fileWatchLoop, hrel, h, hwr, if_false, if_true, DiskStore.send]
    · simp only [DiskStore.fileWatchLoop, hrel, h, hwr.symm, if_false, if_true, DiskStore.send]
  · rcases hop with h | h
    · simp only [DiskStore.fileWatchLoop, hrel, h, hwr, if_false, if_true, DiskStore.send]
    · simp only [DiskStore.fileWatchLoop, hrel, h, hwr.symm, if_false, if_true, DiskStore.send]

/-- Witness of the amended C8: a write notification for `/conf/a` on a disk
store whose skip counter for `a` is 1. -/
theorem diskStore_unwatches_and_never_skips_witness :
    sampleFilepath.Rel sampleDiskSkipping.Location sampleFsEvent.Name = ("a", none) ∧
    (sampleFsEvent.Op = fsnotifyWrite ∨ sampleFsEvent.Op = fsnotifyRemove) ∧
    (DiskStore.fileWatchLoop sampleFilepath sampleReadFile [sampleFsEvent]
      sampleDiskSkipping).skipMap = sampleDiskSkipping.skipMap :=
  ⟨by decide, by decide,
    (diskStore_unwatches_and_never_skips sampleFilepath sampleReadFile sampleDiskSkipping "a" [7]
      sampleFsEvent "a" (by decide) (by decide)).2.2.2.2.2⟩

/-- Counterexample to C8: on a disk store as `NewDiskStore` leaves it (empty skip
map), `Put` and `Delete` of key `a` do not raise the skip counter of `a`, so no
self-inflicted event is registered; and were the skip counter of `a` 1, a write
notification for `/conf/a` would still be sent on the update stream and the
counter would stay at 1. -/
theorem diskStore_skip_map_unused :
    SkipMap.get (DiskStore.Put sampleFilepath sampleDisk "a" [7]).2.skipMap "a"
      ≠ SkipMap.get sampleDisk.skipMap "a" + 1 ∧
    SkipMap.get (DiskStore.Delete sampleFilepath sampleDisk "a").2.skipMap "a"
      ≠ SkipMap.get sampleDisk.skipMap "a" + 1 ∧
    0 < SkipMap.get sampleDiskSkipping.skipMap "a" ∧
    (DiskStore.fileWatchLoop sampleFilepath sampleReadFile [sampleFsEvent]
      sampleDiskSkipping).updateChan = [{ Type_ := ConfPut, Key := "a", Content := [7] }] ∧
    SkipMap.get (DiskStore.fileWatchLoop sampleFilepath sampleReadFile [sampleFsEvent]
      sampleDiskSkipping).skipMap "a" = 1 := by
  refine ⟨by decide, by decide, by decide, by decide, by decide⟩

end Confsyncer
